import Mathlib

/-!
Shallow embedding of the product-fact consensus engine of briefgenv2
(src/consensus.py, src/product_research.py, src/gemini_fetcher.py), with
theorems settling the spec's claims about it.

Modelling conventions:
* Python floats are modelled as exact rationals (ℚ).  Every confidence
  constant in the source (0.35, 0.15, 0.25, 0.9, 0.95, …) is an exact
  decimal, and at every comparison the claims depend on, the Python float
  value and the rational value coincide (checked concretely: e.g. in
  IEEE double arithmetic 0.35 + 0.15 == 0.5 and 0.45 + 0.15 == 0.6 hold
  exactly).
* Python dicts (`defaultdict(list)` used for grouping) preserve insertion
  order; they are modelled as association lists whose keys appear in order
  of first insertion (`_groupByKey`).
* `max(xs, key=f)` returns the first maximal element; modelled by
  `_argmaxBy`.
* The availability of the optional `pint` unit registry (`UREG`) is an
  explicit boolean parameter `ureg`.
-/

/-! ## Data model (consensus.py `Claim` dataclass) -/

/-- consensus.py `Claim`: key, value, source, snippet, kind. -/
structure Claim where
  key : String
  value : String
  source : String
  snippet : String
  kind : String
deriving DecidableEq, Repr

/-- A default claim used to model Python's `lst[0]` on lists known to be
nonempty (groups produced by grouping are never empty). -/
def _dfltClaim : Claim := ⟨"", "", "", "", ""⟩

/-- One entry of a `sources` list: `{"url": ..., "snippet": ...}`. -/
structure SourceRef where
  url : String
  snippet : String
deriving DecidableEq, Repr

/-- One entry of the `specs` output list:
`{"key": ..., "value": ..., "sources": ..., "confidence": ...}`. -/
structure SpecEntry where
  key : String
  value : String
  sources : List SourceRef
  confidence : ℚ
deriving DecidableEq, Repr

/-- One entry of the `features` / `disclaimers` output lists:
`{"text": ..., "sources": ..., "confidence": ...}`. -/
structure TextEntry where
  text : String
  sources : List SourceRef
  confidence : ℚ
deriving DecidableEq, Repr

/-- The dict returned by `consolidate_claims` (its five keys). -/
structure ConsolidatedRecord where
  specs : List SpecEntry
  features : List TextEntry
  disclaimers : List TextEntry
  claims : List (String × String × String)
  notes : List String
deriving DecidableEq, Repr

/-- consensus.py `NUMERIC_KEYS` (a set; order irrelevant). -/
def NUMERIC_KEYS : List String :=
  ["weight", "capacity", "battery_life", "power", "screen", "ip_rating",
   "dimensions", "load_capacity", "packed_size", "seat_height"]

/-- consensus.py `_is_numeric_like`. -/
def _is_numeric_like (key : String) : Bool := NUMERIC_KEYS.contains key

/-! ## `_norm_phrase` (consensus.py lines 28–32)

`s.strip().lower()`, then delete every character outside `\w \s × x . - : /`,
then collapse whitespace runs to a single space. -/

/-- Python `str.strip()`: drop leading and trailing whitespace. -/
def _stripChars (cs : List Char) : List Char :=
  ((cs.dropWhile Char.isWhitespace).reverse.dropWhile Char.isWhitespace).reverse

/-- Python `str.lower()` on the ASCII inputs at hand, as a character list. -/
def _lowerChars (s : String) : List Char := s.toList.map Char.toLower

/-- Python regex `\w` on the ASCII inputs at hand: alphanumeric or `_`. -/
def _isWordChar (c : Char) : Bool := c.isAlphanum || c = '_'

/-- Characters kept by `re.sub(r"[^\w\s×x\.\-:/]", "", s)`. -/
def _keepChar (c : Char) : Bool :=
  _isWordChar c || c.isWhitespace || c = '×' || c = 'x' || c = '.' ||
    c = '-' || c = ':' || c = '/'

/-- `re.sub(r"\s+", " ", s)`: collapse each whitespace run to one space.
The boolean flag records whether the previous character was whitespace. -/
def _collapseWsAux : List Char → Bool → List Char
  | [], _ => []
  | c :: rest, prevWs =>
    if c.isWhitespace then
      if prevWs then _collapseWsAux rest true
      else ' ' :: _collapseWsAux rest true
    else c :: _collapseWsAux rest false

/-- consensus.py `_norm_phrase`. -/
def _norm_phrase (s : String) : String :=
  String.mk (_collapseWsAux ((_stripChars s.toList).map Char.toLower |>.filter _keepChar) false)

/-! ## `_normalize_units` (consensus.py lines 37–62) -/

/-- Characters matched by `[\d\.]`. -/
def _isNumChar (c : Char) : Bool := c.isDigit || c = '.'

/-- `needle` is a prefix of `hay` (character lists). -/
def _charsLead : List Char → List Char → Bool
  | [], _ => true
  | _ :: _, [] => false
  | n :: ns, h :: hs => n = h && _charsLead ns hs

/-- The unit alternation `kg|g|lbs?|pounds|oz` of the search regex, expanded
in the order the regex engine tries the branches. -/
def _unitAlts : List String := ["kg", "g", "lbs", "lb", "pounds", "oz"]

/-- First unit branch matching at the head of `l` (regex alternation order). -/
def _matchUnitAt (l : List Char) : Option String :=
  _unitAlts.find? (fun u => _charsLead u.toList l)

/-- `re.search(r"([\d\.]+)\s*(kg|g|lbs?|pounds|oz)", value.lower())`:
scan left to right; at each position take the maximal `[\d\.]` run
(nonempty), skip whitespace, and try the unit branches.  On failure the
search restarts one character further right.  Returns `(group1, group2)`. -/
def _searchNumUnit : List Char → Option (String × String)
  | [] => none
  | c :: rest =>
    if _isNumChar c then
      let run := (c :: rest).takeWhile _isNumChar
      let after := ((c :: rest).dropWhile _isNumChar).dropWhile Char.isWhitespace
      match _matchUnitAt after with
      | some u => some (String.mk run, u)
      | none => _searchNumUnit rest
    else _searchNumUnit rest

/-- Digits of a character list read as a base-10 natural number. -/
def _digitsVal (cs : List Char) : ℕ :=
  cs.foldl (fun n c => 10 * n + (c.toNat - 48)) 0

/-- Python `float(...)` on a `[\d\.]+` capture: succeeds iff the string has
at least one digit and at most one dot; `none` models the `ValueError`
swallowed by the surrounding `try/except`. -/
def _parseFloat (s : String) : Option ℚ :=
  let cs := s.toList
  if cs.any Char.isDigit && cs.count '.' ≤ 1 then
    let intPart := cs.takeWhile (fun c => c ≠ '.')
    let fracPart := (cs.dropWhile (fun c => c ≠ '.')).drop 1
    some ((_digitsVal intPart : ℚ) + (_digitsVal fracPart : ℚ) / (10 ^ fracPart.length))
  else none

/-- Conversion factors of the `pint` registry to kilograms:
1 lb = 0.45359237 kg, 1 oz = lb/16, 1 g = 0.001 kg. -/
def _unitToKg (u : String) : ℚ :=
  if u = "kg" then 1
  else if u = "g" then 1 / 1000
  else if u = "oz" then 28349523125 / 1000000000000
  else 45359237 / 100000000

/-- `f"{kg:.2f} kg"` for the nonnegative magnitudes produced by parsing:
round to the nearest hundredth (no tie ever arises at the inputs the
claims evaluate) and print with two decimals. -/
def _fmt2kg (kg : ℚ) : String :=
  let n := (round (kg * 100)).toNat
  toString (n / 100) ++ "." ++ (if n % 100 < 10 then "0" else "") ++
    toString (n % 100) ++ " kg"

/-- consensus.py `_normalize_units`.  `ureg` models whether the optional
`pint` registry imported at module load (`UREG`) is available; when it is
not, the function returns the value unchanged. -/
def _normalize_units (ureg : Bool) (key value : String) : String :=
  if !ureg then value
  else if key = "weight" ∨ key = "load_capacity" then
    match _searchNumUnit (_lowerChars value) with
    | none => value
    | some (numStr, unit) =>
      match _parseFloat numStr with
      | none => value
      | some qty => _fmt2kg (qty * _unitToKg unit)
  else if key = "dimensions" ∨ key = "packed_size" ∨ key = "screen" ∨
      key = "seat_height" then
    String.mk (value.toList.map (fun c => if c = 'x' then '×' else c))
  else value

/-! ## Grouping (Python `defaultdict(list)` insertion-order semantics) -/

/-- Append claim `c` to the group of key `k`, or create the group at the
end if no group has key `k` yet (dict insertion order). -/
def _addToGroups (k : String) (c : Claim) :
    List (String × List Claim) → List (String × List Claim)
  | [] => [(k, [c])]
  | (k₁, g) :: rest =>
    if k₁ = k then (k₁, g ++ [c]) :: rest
    else (k₁, g) :: _addToGroups k c rest

/-- Group a claim list by a key function, keys in first-insertion order,
members of each group in input order. -/
def _groupByKey (f : Claim → String) (cs : List Claim) :
    List (String × List Claim) :=
  cs.foldl (fun acc c => _addToGroups (f c) c acc) []

/-- Python `max(xs, key=f)`: the first element with maximal `f`-value
(`max` replaces its candidate only on strictly greater keys). -/
def _argmaxBy {α β : Type} [LinearOrder β] (f : α → β) : List α → Option α
  | [] => none
  | x :: xs => some (xs.foldl (fun best y => if f y > f best then y else best) x)

/-! ## Confidence formulas (named here; inline expressions in the source) -/

/-- `score = len(vals) (+ 2.5 if any manufacturer)` in `_pick_numeric`. -/
def _score_group (is_manufacturer : String → String → Bool) (brand : String)
    (g : List Claim) : ℚ :=
  (g.length : ℚ) +
    (if g.any (fun v => is_manufacturer v.source brand) then 2.5 else 0)

/-- `min(0.95, 0.45 + 0.15*len(chosen) + (0.25 if manufacturer else 0))`
(consensus.py line 78). -/
def _numeric_conf (is_manufacturer : String → String → Bool) (brand : String)
    (g : List Claim) : ℚ :=
  min 0.95 (0.45 + 0.15 * (g.length : ℚ) +
    (if g.any (fun v => is_manufacturer v.source brand) then 0.25 else 0))

/-- `min(0.9, 0.4 + 0.2*len(chosen) + (0.25 if manufacturer else 0))`
(consensus.py line 114, non-numeric specs). -/
def _string_spec_conf (is_manufacturer : String → String → Bool) (brand : String)
    (g : List Claim) : ℚ :=
  min 0.9 (0.4 + 0.2 * (g.length : ℚ) +
    (if g.any (fun v => is_manufacturer v.source brand) then 0.25 else 0))

/-- `min(0.9, 0.35 + 0.15*len(lst) + (0.25 if manufacturer else 0))`
(consensus.py lines 123 and 132; features and disclaimers use the same
formula). -/
def _phrase_conf (is_manufacturer : String → String → Bool) (brand : String)
    (g : List Claim) : ℚ :=
  min 0.9 (0.35 + 0.15 * (g.length : ℚ) +
    (if g.any (fun v => is_manufacturer v.source brand) then 0.25 else 0))

/-! ## `_pick_numeric` and `consolidate_claims` (consensus.py lines 64–147) -/

/-- consensus.py `_pick_numeric`: group by normalized value, pick the
best-scoring group (manufacturer boost), return its normalized value,
confidence, and sources.  The `none` branch of the match is unreachable:
every call site passes a nonempty claim list. -/
def _pick_numeric (ureg : Bool) (claims : List Claim) (brand : String)
    (is_manufacturer : String → String → Bool) :
    String × ℚ × List SourceRef :=
  let by_norm := _groupByKey (fun c => _normalize_units ureg c.key c.value) claims
  match _argmaxBy (fun p => _score_group is_manufacturer brand p.2) by_norm with
  | none => ("", 0, [])
  | some (best_norm, chosen) =>
    (best_norm, _numeric_conf is_manufacturer brand chosen,
     chosen.map (fun c => ⟨c.source, c.snippet⟩))

/-- Body of the specs loop of `consolidate_claims` (lines 99–116): the
entry emitted for one `(key, claims)` group of `by_key`, if any. -/
def _spec_entry_for (ureg : Bool) (brand : String) (min_confidence : ℚ)
    (is_manufacturer : String → String → Bool) (p : String × List Claim) :
    Option SpecEntry :=
  if p.1 = "feature" ∨ p.1 = "disclaimer" then none
  else if _is_numeric_like p.1 then
    let r := _pick_numeric ureg p.2 brand is_manufacturer
    if min_confidence ≤ r.2.1 then some ⟨p.1, r.1, r.2.2, r.2.1⟩ else none
  else
    match _argmaxBy (fun q => q.2.length)
        (_groupByKey (fun c => _norm_phrase c.value) p.2) with
    | none => none
    | some (_, chosen) =>
      let conf := _string_spec_conf is_manufacturer brand chosen
      if min_confidence ≤ conf then
        some ⟨p.1, (chosen.headD _dfltClaim).value,
          chosen.map (fun x => ⟨x.source, x.snippet⟩), conf⟩
      else none

/-- Body of the features loop (lines 122–125) and of the identical
disclaimers loop (lines 131–134): the entry emitted for one normalized
phrase group, if any. -/
def _text_entry_for (is_manufacturer : String → String → Bool) (brand : String)
    (min_confidence : ℚ) (p : String × List Claim) : Option TextEntry :=
  let conf := _phrase_conf is_manufacturer brand p.2
  if min_confidence ≤ conf ∨ 2 ≤ p.2.length then
    some ⟨(p.2.headD _dfltClaim).value,
      p.2.map (fun x => ⟨x.source, x.snippet⟩), conf⟩
  else none

/-- consensus.py `consolidate_claims` (lines 82–147).  `notes` is declared
and returned but never appended to in the source, hence always `[]`. -/
def consolidate_claims (ureg : Bool) (claims : List Claim) (brand : String)
    (min_confidence : ℚ) (is_manufacturer : String → String → Bool) :
    ConsolidatedRecord :=
  let by_key := _groupByKey (fun c => c.key) claims
  let specs_out :=
    by_key.filterMap (_spec_entry_for ureg brand min_confidence is_manufacturer)
  let feat_claims := ((by_key.find? (fun p => p.1 = "feature")).map (fun p => p.2)).getD []
  let feat_vals := _groupByKey (fun c => _norm_phrase c.value) feat_claims
  let feats := feat_vals.filterMap (_text_entry_for is_manufacturer brand min_confidence)
  let disc_claims := ((by_key.find? (fun p => p.1 = "disclaimer")).map (fun p => p.2)).getD []
  let disc_vals := _groupByKey (fun c => _norm_phrase c.value) disc_claims
  let discls := disc_vals.filterMap (_text_entry_for is_manufacturer brand min_confidence)
  let claims_out := (claims.take 30).map (fun c => (c.key, c.value, c.source))
  ⟨specs_out, feats.take 20, discls.take 10, claims_out, []⟩

/-! ## Python-module-level facts used by the error-handling claims

`product_research.py` line 42 executes
`from consensus import consolidate_claims, normalize_units`, and line 432
calls `consolidate_claims(raw_claims, brand_token=brand_token)`.  The
following name lists transcribe the relevant interfaces of both modules. -/

/-- The module-level names defined by consensus.py. -/
def consensus_module_names : List String :=
  ["UREG", "Claim", "NUMERIC_KEYS", "_norm_phrase", "_is_numeric_like",
   "_normalize_units", "_pick_numeric", "consolidate_claims"]

/-- The names product_research.py imports from consensus (line 42). -/
def product_research_consensus_imports : List String :=
  ["consolidate_claims", "normalize_units"]

/-- The parameter names of consensus.py `consolidate_claims` (line 82). -/
def consolidate_claims_params : List String :=
  ["claims", "brand", "min_confidence", "is_manufacturer"]

/-- The keyword arguments of the `consolidate_claims(...)` call inside
`research_product` (product_research.py line 432). -/
def research_product_consolidate_call_kwargs : List String :=
  ["brand_token"]

/-! ## Category guard (gemini_fetcher.py)

`CATEGORY_PROFILES` and `_resolve_category` are transcribed from
gemini_fetcher.py lines 28–94.  The guard itself is not a Python function:
it is enforced through the LLM prompt (`PROMPT_TEMPLATE`, STRICT FILTER 2:
"Pages must contain at least one ALLOW marker for the Desired Category,
and must not contain any DENY markers."), so its decision procedure is
modelled from that prompt text below (`category_ok`). -/

/-- One profile of `CATEGORY_PROFILES`: aliases, allow markers, deny markers. -/
structure CategoryProfile where
  aliases : List String
  allow : List String
  deny : List String
deriving DecidableEq, Repr

/-- gemini_fetcher.py `CATEGORY_PROFILES` (insertion order preserved). -/
def CATEGORY_PROFILES : List (String × CategoryProfile) :=
  [("headphones",
    ⟨["headphone", "headphones", "earbuds", "headset"],
     ["headphone", "earbuds", "headset", "bluetooth", "anc", "noise cancellation",
      "drivers", "impedance", "frequency response", "codec", "aac", "ldac", "aptx"],
     ["wh", "portable power station", "generator", "inverter", "lifepo4",
      "ac outlet", "solar input", "welding", "lawn mower"]⟩),
   ("earbuds",
    ⟨["earbud", "earbuds", "headphones", "headset"],
     ["earbud", "earbuds", "bluetooth", "anc", "noise cancellation", "ipx", "codec"],
     ["wh", "generator", "inverter", "lifepo4", "ac outlet", "solar input"]⟩),
   ("smartphone",
    ⟨["phone", "smartphone", "android", "iphone"],
     ["smartphone", "android", "ios", "camera", "display", "battery", "soc",
      "snapdragon", "exynos"],
     ["portable power station", "generator", "vacuum", "sofa", "detergent", "shampoo"]⟩),
   ("laptop",
    ⟨["laptop", "notebook"],
     ["laptop", "notebook", "intel", "amd", "ryzen", "ram", "ssd", "display", "keyboard"],
     ["generator", "sofa", "toothbrush", "shampoo"]⟩),
   ("camera",
    ⟨["camera", "mirrorless", "dslr", "action camera"],
     ["camera", "sensor", "iso", "aperture", "lens", "shutter", "fps", "4k"],
     ["generator", "chair", "shampoo"]⟩),
   ("speaker",
    ⟨["speaker", "soundbar", "smart speaker"],
     ["speaker", "soundbar", "bluetooth", "watt", "woofer", "tweeter", "dolby"],
     ["generator", "lifepo4", "ac outlet"]⟩),
   ("vacuum",
    ⟨["vacuum", "vacuum cleaner", "robot vacuum", "stick vacuum"],
     ["vacuum", "suction", "pa", "dustbin", "hepa", "run time"],
     ["smartphone", "headphones", "generator"]⟩),
   ("coffee maker",
    ⟨["coffee maker", "espresso", "drip coffee", "keurig"],
     ["coffee", "espresso", "bar", "water tank", "brew"],
     ["smartphone", "headphones", "generator"]⟩),
   ("portable power station",
    ⟨["portable power station", "generator", "power station"],
     ["wh", "kwh", "dc", "ac outlet", "inverter", "lifepo4", "solar input", "cycle life"],
     ["headphones", "earbuds", "anc", "drivers", "impedance", "frequency response"]⟩)]

/-- gemini_fetcher.py `_resolve_category`: empty/absent hint → no profile;
else normalize and try a direct key match, then an alias match; unknown
hints resolve to no profile (minimal constraints). -/
def _resolve_category (cat_hint : Option String) : String × Option CategoryProfile :=
  match cat_hint with
  | none => ("", none)
  | some hint =>
    if hint = "" then ("", none)
    else
      let c := String.mk ((_stripChars hint.toList).map Char.toLower)
      match CATEGORY_PROFILES.find? (fun p => p.1 = c) with
      | some p => (p.1, some p.2)
      | none =>
        match CATEGORY_PROFILES.find? (fun p => p.2.aliases.contains c) with
        | some p => (p.1, some p.2)
        | none => (c, none)

/-- `needle` occurs as a contiguous substring of `hay`. -/
def _containsSub (needle : List Char) (hay : List Char) : Bool :=
  _charsLead needle hay ||
    match hay with
    | [] => false
    | _ :: hs => _containsSub needle hs

/-- Modelled from the spec: the category guard of §4.6
(`category_ok(candidate_text, desired_category) -> bool`).  No Python
function in the repository implements the guard; gemini_fetcher.py enforces
it through PROMPT_TEMPLATE's STRICT FILTER 2, quoted above: a page must
contain at least one allow marker of the resolved category profile and no
deny marker (markers are matched case-insensitively, like the prompt's
token checks); with no resolved profile (unknown or unset category) there
are no markers to enforce and everything passes. -/
def category_ok (candidate_text : String) (cat_hint : Option String) : Bool :=
  match (_resolve_category cat_hint).2 with
  | none => true
  | some p =>
    (p.allow.any (fun m => _containsSub m.toList (_lowerChars candidate_text))) &&
    !(p.deny.any (fun m => _containsSub m.toList (_lowerChars candidate_text)))

/-! ## Helper lemmas about grouping and argmax -/

theorem _addToGroups_ne_nil (k : String) (c : Claim)
    (l : List (String × List Claim)) : _addToGroups k c l ≠ [] := by
  cases l with
  | nil => simp [_addToGroups]
  | cons q rest =>
    rw [_addToGroups]
    split <;> simp

theorem _addToGroups_groups_ne_nil {l : List (String × List Claim)}
    (hl : ∀ p ∈ l, p.2 ≠ []) (k : String) (c : Claim) :
    ∀ p ∈ _addToGroups k c l, p.2 ≠ [] := by
  induction l with
  | nil =>
    intro p hp
    rw [_addToGroups, List.mem_singleton] at hp
    subst hp; simp
  | cons q rest ih =>
    intro p hp
    rw [_addToGroups] at hp
    split at hp
    · rcases List.mem_cons.mp hp with h | h
      · subst h
        have := hl q (List.mem_cons_self q rest)
        simp_all
      · exact hl p (List.mem_cons_of_mem q h)
    · rcases List.mem_cons.mp hp with h | h
      · subst h; exact hl q (List.mem_cons_self q rest)
      · exact ih (fun r hr => hl r (List.mem_cons_of_mem q hr)) p h

theorem _groupByKey_foldl_groups_ne_nil (f : Claim → String) (cs : List Claim) :
    ∀ acc : List (String × List Claim), (∀ p ∈ acc, p.2 ≠ []) →
      ∀ p ∈ cs.foldl (fun a c => _addToGroups (f c) c a) acc, p.2 ≠ [] := by
  induction cs with
  | nil => intro acc hacc; simpa using hacc
  | cons c cs ih =>
    intro acc hacc
    simp only [List.foldl_cons]
    exact ih _ (_addToGroups_groups_ne_nil hacc (f c) c)

theorem _groupByKey_groups_ne_nil (f : Claim → String) (cs : List Claim) :
    ∀ p ∈ _groupByKey f cs, p.2 ≠ [] :=
  _groupByKey_foldl_groups_ne_nil f cs [] (by simp)

theorem _groupByKey_foldl_ne_nil (f : Claim → String) (cs : List Claim) :
    ∀ acc : List (String × List Claim), acc ≠ [] →
      cs.foldl (fun a c => _addToGroups (f c) c a) acc ≠ [] := by
  induction cs with
  | nil => intro acc hacc; simpa using hacc
  | cons c cs ih =>
    intro acc _
    simp only [List.foldl_cons]
    exact ih _ (_addToGroups_ne_nil (f c) c acc)

theorem _groupByKey_ne_nil (f : Claim → String) {cs : List Claim}
    (h : cs ≠ []) : _groupByKey f cs ≠ [] := by
  cases cs with
  | nil => exact absurd rfl h
  | cons c cs =>
    rw [_groupByKey]
    simp only [List.foldl_cons]
    exact _groupByKey_foldl_ne_nil f cs _ (_addToGroups_ne_nil (f c) c [])

theorem _addToGroups_keys (k : String) (c : Claim)
    (l : List (String × List Claim)) :
    (_addToGroups k c l).map Prod.fst =
      if k ∈ l.map Prod.fst then l.map Prod.fst
      else l.map Prod.fst ++ [k] := by
  induction l with
  | nil => simp [_addToGroups]
  | cons q rest ih =>
    rw [_addToGroups]
    by_cases hq : q.1 = k
    · rw [if_pos hq]
      simp [hq]
    · rw [if_neg hq]
      simp only [List.map_cons]
      rw [ih]
      by_cases hk : k ∈ rest.map Prod.fst
      · rw [if_pos hk, if_pos (by simp [hk])]
      · have hnotin : k ∉ q.1 :: rest.map Prod.fst := by
          simp only [List.mem_cons]
          push_neg
          exact ⟨fun h => hq h.symm, hk⟩
        rw [if_neg hk, if_neg hnotin]
        simp

theorem _addToGroups_keys_nodup {l : List (String × List Claim)}
    (h : (l.map Prod.fst).Nodup) (k : String) (c : Claim) :
    ((_addToGroups k c l).map Prod.fst).Nodup := by
  rw [_addToGroups_keys]
  split
  · exact h
  · next hk =>
    rw [List.nodup_append]
    exact ⟨h, List.nodup_singleton k,
      fun a ha hb => hk (by rwa [List.mem_singleton.mp hb] at ha)⟩

theorem _groupByKey_foldl_keys_nodup (f : Claim → String) (cs : List Claim) :
    ∀ acc : List (String × List Claim), (acc.map Prod.fst).Nodup →
      ((cs.foldl (fun a c => _addToGroups (f c) c a) acc).map Prod.fst).Nodup := by
  induction cs with
  | nil => intro acc hacc; simpa using hacc
  | cons c cs ih =>
    intro acc hacc
    simp only [List.foldl_cons]
    exact ih _ (_addToGroups_keys_nodup hacc (f c) c)

theorem _groupByKey_keys_nodup (f : Claim → String) (cs : List Claim) :
    ((_groupByKey f cs).map Prod.fst).Nodup :=
  _groupByKey_foldl_keys_nodup f cs [] (by simp)

theorem _argmaxBy_foldl_mem {α β : Type} [LinearOrder β] (f : α → β)
    (xs : List α) (x : α) :
    xs.foldl (fun best y => if f y > f best then y else best) x = x ∨
      xs.foldl (fun best y => if f y > f best then y else best) x ∈ xs := by
  induction xs generalizing x with
  | nil => left; rfl
  | cons y ys ih =>
    simp only [List.foldl_cons]
    rcases ih (if f y > f x then y else x) with h | h
    · rw [h]
      split
      · right; exact List.mem_cons_self y ys
      · left; rfl
    · right; exact List.mem_cons_of_mem y h

theorem _argmaxBy_mem {α β : Type} [LinearOrder β] {f : α → β} {l : List α}
    {x : α} (h : _argmaxBy f l = some x) : x ∈ l := by
  cases l with
  | nil => simp [_argmaxBy] at h
  | cons a as =>
    rw [_argmaxBy, Option.some.injEq] at h
    rcases _argmaxBy_foldl_mem f as a with h2 | h2
    · rw [← h, h2]; exact List.mem_cons_self a as
    · rw [← h]; exact List.mem_cons_of_mem a h2

theorem _argmaxBy_isSome {α β : Type} [LinearOrder β] (f : α → β)
    {l : List α} (h : l ≠ []) : ∃ x, _argmaxBy f l = some x := by
  cases l with
  | nil => exact absurd rfl h
  | cons a as => exact ⟨_, rfl⟩

theorem _filterMap_key_sublist {α β γ : Type} (g : α → Option β) (k₁ : α → γ)
    (k₂ : β → γ) (h : ∀ a b, g a = some b → k₂ b = k₁ a) (l : List α) :
    ((l.filterMap g).map k₂).Sublist (l.map k₁) := by
  induction l with
  | nil => simp
  | cons a as ih =>
    rw [List.filterMap_cons]
    cases hg : g a with
    | none => simp only [List.map_cons]; exact ih.cons (k₁ a)
    | some b =>
      simp only [List.map_cons, h a b hg]
      exact ih.cons₂ (k₁ a)

/-! ## Confidence bound lemmas -/

theorem _numeric_conf_bounds (ism : String → String → Bool) (brand : String)
    {g : List Claim} (hg : g ≠ []) :
    1/2 ≤ _numeric_conf ism brand g ∧ _numeric_conf ism brand g ≤ 49/50 := by
  have h1 : (1 : ℚ) ≤ (g.length : ℚ) := by
    exact_mod_cast Nat.one_le_iff_ne_zero.mpr (fun h => hg (List.length_eq_zero.mp h))
  rw [_numeric_conf]
  refine ⟨le_min (by norm_num) ?_, le_trans (min_le_left _ _) (by norm_num)⟩
  split <;> linarith

theorem _string_spec_conf_bounds (ism : String → String → Bool) (brand : String)
    {g : List Claim} (hg : g ≠ []) :
    1/2 ≤ _string_spec_conf ism brand g ∧ _string_spec_conf ism brand g ≤ 49/50 := by
  have h1 : (1 : ℚ) ≤ (g.length : ℚ) := by
    exact_mod_cast Nat.one_le_iff_ne_zero.mpr (fun h => hg (List.length_eq_zero.mp h))
  rw [_string_spec_conf]
  refine ⟨le_min (by norm_num) ?_, le_trans (min_le_left _ _) (by norm_num)⟩
  split <;> linarith

theorem _phrase_conf_bounds (ism : String → String → Bool) (brand : String)
    {g : List Claim} (hg : g ≠ []) :
    1/2 ≤ _phrase_conf ism brand g ∧ _phrase_conf ism brand g ≤ 49/50 := by
  have h1 : (1 : ℚ) ≤ (g.length : ℚ) := by
    exact_mod_cast Nat.one_le_iff_ne_zero.mpr (fun h => hg (List.length_eq_zero.mp h))
  rw [_phrase_conf]
  refine ⟨le_min (by norm_num) ?_, le_trans (min_le_left _ _) (by norm_num)⟩
  split <;> linarith

/-! ## Destructors for the entries `consolidate_claims` emits -/

theorem _pick_numeric_eq (ureg : Bool) (brand : String)
    (ism : String → String → Bool) {claims : List Claim} (h : claims ≠ []) :
    ∃ bn chosen, chosen ≠ [] ∧
      _pick_numeric ureg claims brand ism =
        (bn, _numeric_conf ism brand chosen,
          chosen.map (fun c => ⟨c.source, c.snippet⟩)) := by
  have hbn := _groupByKey_ne_nil (fun c => _normalize_units ureg c.key c.value) h
  obtain ⟨x, hx⟩ := _argmaxBy_isSome
    (fun p => _score_group ism brand p.2) hbn
  obtain ⟨bn, chosen⟩ := x
  refine ⟨bn, chosen, ?_, ?_⟩
  · exact _groupByKey_groups_ne_nil _ claims (bn, chosen) (_argmaxBy_mem hx)
  · rw [_pick_numeric]
    rw [hx]

/-- Membership in a filterMap over `_text_entry_for` (the features and
disclaimers loops): the entry comes from one nonempty phrase group whose
acceptance condition held. -/
theorem _text_entry_mem {ism : String → String → Bool} {brand : String}
    {mc : ℚ} {l : List (String × List Claim)}
    (hne : ∀ p ∈ l, p.2 ≠ []) {e : TextEntry}
    (he : e ∈ l.filterMap (_text_entry_for ism brand mc)) :
    ∃ g : List Claim, g ≠ [] ∧
      e = ⟨(g.headD _dfltClaim).value, g.map (fun x => ⟨x.source, x.snippet⟩),
        _phrase_conf ism brand g⟩ ∧
      (mc ≤ _phrase_conf ism brand g ∨ 2 ≤ g.length) := by
  obtain ⟨p, hp, hpe⟩ := List.mem_filterMap.mp he
  rw [_text_entry_for] at hpe
  split at hpe
  · next hcond => exact ⟨p.2, hne p hp, (Option.some.inj hpe).symm, hcond⟩
  · cases hpe

/-! ## Claim theorems -/

/-- C1: the claim says `research_product` always returns a well-formed
record and never raises.  In fact the call can never succeed:
product_research.py imports the name `normalize_units` from consensus.py,
which defines no such name (only `_normalize_units`), so importing the
module raises `ImportError`; and even past that, `research_product` calls
`consolidate_claims(raw_claims, brand_token=...)` with a keyword argument
`brand_token` that `consolidate_claims` does not accept, which raises
`TypeError`.  This theorem certifies both name mismatches against the
transcribed interfaces. -/
theorem spec_c1_research_product_raises :
    ("normalize_units" ∈ product_research_consensus_imports ∧
      "normalize_units" ∉ consensus_module_names) ∧
    ("brand_token" ∈ research_product_consolidate_call_kwargs ∧
      "brand_token" ∉ consolidate_claims_params) := by
  decide

/-- C2: for any input claim list (and any brand, min_confidence,
manufacturer test, and unit-registry availability), the `specs` list
returned by `consolidate_claims` never contains two entries with the same
key: the keys of the emitted spec entries are pairwise distinct, so there
is at most one accepted value per spec key. -/
theorem spec_c2_at_most_one_value_per_key (ureg : Bool) (claims : List Claim)
    (brand : String) (mc : ℚ) (ism : String → String → Bool) :
    ((consolidate_claims ureg claims brand mc ism).specs.map
      (fun e => e.key)).Nodup := by
  have hkey : ∀ p e, _spec_entry_for ureg brand mc ism p = some e →
      e.key = p.1 := by
    intro p e h
    simp only [_spec_entry_for] at h
    split at h
    · cases h
    · split at h
      · split at h
        · rw [← Option.some.inj h]
        · cases h
      · split at h
        · cases h
        · split at h
          · rw [← Option.some.inj h]
          · cases h
  have hsub := _filterMap_key_sublist (_spec_entry_for ureg brand mc ism)
    Prod.fst (fun e => e.key) hkey (_groupByKey (fun c => c.key) claims)
  exact (_groupByKey_keys_nodup (fun c => c.key) claims).sublist hsub

/-- C6 counterexample: on the empty claim list `consolidate_claims` returns
a record whose `notes` list (the only caveat/warning field of the returned
dict) is empty — no warning entry noting low/no data is produced, contrary
to the claim.  (`notes` is initialized to `[]` in the source and never
appended to.) -/
theorem spec_c6_cex :
    (consolidate_claims true [] "acme" 0.6 (fun _ _ => false)).notes = [] := by
  rfl

/-- C6 (amended): on the empty claim list, `consolidate_claims` returns —
normally, as a value, not an exception — a record whose specs, features,
disclaimers, echoed claims, and notes are all empty; no warning entry is
produced. -/
theorem spec_c6_empty_input (ureg : Bool) (brand : String) (mc : ℚ)
    (ism : String → String → Bool) :
    consolidate_claims ureg [] brand mc ism = ⟨[], [], [], [], []⟩ := by
  rfl

/-- C10: for every input claim list, the record returned by
`consolidate_claims` holds at most 20 feature entries, at most 10
disclaimer entries, and echoes at most 30 raw claims in its debug claims
list. -/
theorem spec_c10_output_caps (ureg : Bool) (claims : List Claim)
    (brand : String) (mc : ℚ) (ism : String → String → Bool) :
    (consolidate_claims ureg claims brand mc ism).features.length ≤ 20 ∧
    (consolidate_claims ureg claims brand mc ism).disclaimers.length ≤ 10 ∧
    (consolidate_claims ureg claims brand mc ism).claims.length ≤ 30 := by
  refine ⟨?_, ?_, ?_⟩ <;> simp only [consolidate_claims]
  · exact List.length_take_le 20 _
  · exact List.length_take_le 10 _
  · rw [List.length_map]
    exact List.length_take_le 30 _

/-- C8: adding one more corroborating claim (new non-manufacturer source)
to a claim group never decreases the group's computed confidence, for each
of the three confidence formulas `consolidate_claims` uses (numeric specs,
non-numeric specs, features/disclaimers). -/
theorem spec_c8_confidence_monotone (ism : String → String → Bool)
    (brand : String) (g : List Claim) (c : Claim)
    (h : ism c.source brand = false) :
    _numeric_conf ism brand g ≤ _numeric_conf ism brand (g ++ [c]) ∧
    _string_spec_conf ism brand g ≤ _string_spec_conf ism brand (g ++ [c]) ∧
    _phrase_conf ism brand g ≤ _phrase_conf ism brand (g ++ [c]) := by
  have hlen : (((g ++ [c]).length : ℕ) : ℚ) = ((g.length : ℕ) : ℚ) + 1 := by
    push_cast [List.length_append, List.length_singleton]
    ring
  have hany : (g ++ [c]).any (fun v => ism v.source brand) =
      g.any (fun v => ism v.source brand) := by
    simp [List.any_append, h]
  refine ⟨?_, ?_, ?_⟩
  · rw [_numeric_conf, _numeric_conf, hany, hlen]
    refine min_le_min le_rfl ?_
    split <;> linarith
  · rw [_string_spec_conf, _string_spec_conf, hany, hlen]
    refine min_le_min le_rfl ?_
    split <;> linarith
  · rw [_phrase_conf, _phrase_conf, hany, hlen]
    refine min_le_min le_rfl ?_
    split <;> linarith

/-- C8 witness: instantiating the monotonicity theorem at a concrete
one-member group and a concrete new non-manufacturer claim. -/
theorem spec_c8_witness :
    _numeric_conf (fun _ _ => false) "acme" [⟨"weight", "1 kg", "a", "", "spec"⟩] ≤
      _numeric_conf (fun _ _ => false) "acme"
        ([⟨"weight", "1 kg", "a", "", "spec"⟩] ++ [⟨"weight", "1 kg", "b", "", "spec"⟩]) ∧
    _string_spec_conf (fun _ _ => false) "acme" [⟨"weight", "1 kg", "a", "", "spec"⟩] ≤
      _string_spec_conf (fun _ _ => false) "acme"
        ([⟨"weight", "1 kg", "a", "", "spec"⟩] ++ [⟨"weight", "1 kg", "b", "", "spec"⟩]) ∧
    _phrase_conf (fun _ _ => false) "acme" [⟨"weight", "1 kg", "a", "", "spec"⟩] ≤
      _phrase_conf (fun _ _ => false) "acme"
        ([⟨"weight", "1 kg", "a", "", "spec"⟩] ++ [⟨"weight", "1 kg", "b", "", "spec"⟩]) :=
  spec_c8_confidence_monotone (fun _ _ => false) "acme"
    [⟨"weight", "1 kg", "a", "", "spec"⟩] ⟨"weight", "1 kg", "b", "", "spec"⟩ rfl

/-- C9: for every candidate text, if the desired category resolves to a
known profile and the text contains any deny marker of that profile, the
category guard rejects the text regardless of which allow markers it also
contains; if the desired category is unknown or unset (no resolved
profile), the guard passes everything. -/
theorem spec_c9_category_guard (text : String) (cat_hint : Option String) :
    ((_resolve_category cat_hint).2 = none → category_ok text cat_hint = true) ∧
    (∀ p m, (_resolve_category cat_hint).2 = some p → m ∈ p.deny →
      _containsSub m.toList (_lowerChars text) = true →
      category_ok text cat_hint = false) := by
  constructor
  · intro h
    rw [category_ok, h]
  · intro p m hsome hdeny hcon
    rw [category_ok, hsome]
    have hany : p.deny.any (fun m => _containsSub m.toList (_lowerChars text)) = true :=
      List.any_eq_true.mpr ⟨m, hdeny, hcon⟩
    simp only [hany, Bool.not_true, Bool.and_false]

/-- C9 witness: the spec's own scenario — the text "500Wh LiFePO4 battery"
under desired category "headphones" hits the deny marker "wh" (and also
"lifepo4") and is rejected, while an unrecognized category hint ("gadget")
resolves to no profile and passes the same text. -/
theorem spec_c9_witness :
    category_ok "500Wh LiFePO4 battery" (some "headphones") = false ∧
    category_ok "500Wh LiFePO4 battery" (some "gadget") = true := by
  constructor
  · exact (spec_c9_category_guard "500Wh LiFePO4 battery" (some "headphones")).2
      ⟨["headphone", "headphones", "earbuds", "headset"],
       ["headphone", "earbuds", "headset", "bluetooth", "anc", "noise cancellation",
        "drivers", "impedance", "frequency response", "codec", "aac", "ldac", "aptx"],
       ["wh", "portable power station", "generator", "inverter", "lifepo4",
        "ac outlet", "solar input", "welding", "lawn mower"]⟩
      "wh" (by decide) (by decide) (by decide)
  · exact (spec_c9_category_guard "500Wh LiFePO4 battery" (some "gadget")).1 (by decide)

/-- Bounds in `[1/2, 49/50]` imply the remaining claim C4 conjuncts. -/
theorem _conf_bounds_conseq {c : ℚ} (h : 1/2 ≤ c ∧ c ≤ 49/50) :
    1/2 ≤ c ∧ c ≤ 49/50 ∧ c ≠ 0 ∧ c ≠ 1 :=
  ⟨h.1, h.2, fun hc => absurd h.1 (by rw [hc]; norm_num),
    fun hc => absurd h.2 (by rw [hc]; norm_num)⟩

/-- Every feature/disclaimer entry emitted from phrase groups has
confidence in `[1/2, 49/50]`. -/
theorem _text_entries_bounds {ism : String → String → Bool} {brand : String}
    {mc : ℚ} {cs : List Claim} {e : TextEntry}
    (he : e ∈ (_groupByKey (fun c => _norm_phrase c.value) cs).filterMap
      (_text_entry_for ism brand mc)) :
    1/2 ≤ e.confidence ∧ e.confidence ≤ 49/50 ∧
      e.confidence ≠ 0 ∧ e.confidence ≠ 1 := by
  obtain ⟨g, hg, hge, _⟩ := _text_entry_mem (_groupByKey_groups_ne_nil _ cs) he
  rw [hge]
  exact _conf_bounds_conseq (_phrase_conf_bounds ism brand hg)

/-- C4: every entry accepted by `consolidate_claims` — spec, feature, or
disclaimer, for any input claim list and any min_confidence — has a
confidence in the closed interval `[0.5, 0.98]` (in fact `[0.5, 0.95]`),
and in particular never 0 and never 1. -/
theorem spec_c4_confidence_bounds (ureg : Bool) (claims : List Claim)
    (brand : String) (mc : ℚ) (ism : String → String → Bool) :
    (∀ e ∈ (consolidate_claims ureg claims brand mc ism).specs,
      1/2 ≤ e.confidence ∧ e.confidence ≤ 49/50 ∧
        e.confidence ≠ 0 ∧ e.confidence ≠ 1) ∧
    (∀ e ∈ (consolidate_claims ureg claims brand mc ism).features,
      1/2 ≤ e.confidence ∧ e.confidence ≤ 49/50 ∧
        e.confidence ≠ 0 ∧ e.confidence ≠ 1) ∧
    (∀ e ∈ (consolidate_claims ureg claims brand mc ism).disclaimers,
      1/2 ≤ e.confidence ∧ e.confidence ≤ 49/50 ∧
        e.confidence ≠ 0 ∧ e.confidence ≠ 1) := by
  refine ⟨?_, ?_, ?_⟩
  · intro e he
    have he2 : e ∈ (_groupByKey (fun c => c.key) claims).filterMap
        (_spec_entry_for ureg brand mc ism) := he
    obtain ⟨p, hp, hpe⟩ := List.mem_filterMap.mp he2
    have hp2 : p.2 ≠ [] := _groupByKey_groups_ne_nil _ claims p hp
    simp only [_spec_entry_for] at hpe
    split at hpe
    · cases hpe
    · split at hpe
      · obtain ⟨bn, chosen, hch, hpick⟩ := _pick_numeric_eq ureg brand ism hp2
        rw [hpick] at hpe
        split at hpe
        · rw [← Option.some.inj hpe]
          exact _conf_bounds_conseq (_numeric_conf_bounds ism brand hch)
        · cases hpe
      · split at hpe
        · cases hpe
        · rename_i bn chosen heq
          split at hpe
          · have hch : chosen ≠ [] :=
              _groupByKey_groups_ne_nil _ p.2 (bn, chosen) (_argmaxBy_mem heq)
            rw [← Option.some.inj hpe]
            exact _conf_bounds_conseq (_string_spec_conf_bounds ism brand hch)
          · cases hpe
  · intro e he
    simp only [consolidate_claims] at he
    exact _text_entries_bounds (List.take_subset 20 _ he)
  · intro e he
    simp only [consolidate_claims] at he
    exact _text_entries_bounds (List.take_subset 10 _ he)

/-- C4 witness: two corroborating weight claims produce the accepted spec
entry `("weight", "1 kg")` with confidence `3/4`, which the bounds theorem
places in `[1/2, 49/50]`. -/
theorem spec_c4_witness :
    1/2 ≤ ((⟨"weight", "1 kg", [⟨"a", ""⟩, ⟨"b", ""⟩], 3/4⟩ : SpecEntry)).confidence ∧
    ((⟨"weight", "1 kg", [⟨"a", ""⟩, ⟨"b", ""⟩], 3/4⟩ : SpecEntry)).confidence ≤ 49/50 ∧
    ((⟨"weight", "1 kg", [⟨"a", ""⟩, ⟨"b", ""⟩], 3/4⟩ : SpecEntry)).confidence ≠ 0 ∧
    ((⟨"weight", "1 kg", [⟨"a", ""⟩, ⟨"b", ""⟩], 3/4⟩ : SpecEntry)).confidence ≠ 1 := by
  have hconf : _numeric_conf (fun _ _ => false) "acme"
      [⟨"weight", "1 kg", "a", "", "spec"⟩, ⟨"weight", "1 kg", "b", "", "spec"⟩] = 3/4 := by
    rw [_numeric_conf]
    norm_num [min_def]
  have hspecs : (consolidate_claims false
      [⟨"weight", "1 kg", "a", "", "spec"⟩, ⟨"weight", "1 kg", "b", "", "spec"⟩]
      "acme" 0.6 (fun _ _ => false)).specs =
      [⟨"weight", "1 kg", [⟨"a", ""⟩, ⟨"b", ""⟩], 3/4⟩] := by
    simp [consolidate_claims, _groupByKey, _addToGroups, _spec_entry_for,
      _is_numeric_like, NUMERIC_KEYS, _pick_numeric, _normalize_units,
      _argmaxBy, hconf, show ((0.6 : ℚ) ≤ 3/4) from by norm_num]
  exact (spec_c4_confidence_bounds false
    [⟨"weight", "1 kg", "a", "", "spec"⟩, ⟨"weight", "1 kg", "b", "", "spec"⟩]
    "acme" 0.6 (fun _ _ => false)).1
    ⟨"weight", "1 kg", [⟨"a", ""⟩, ⟨"b", ""⟩], 3/4⟩ (by rw [hspecs]; simp)

/-- C3 counterexample: at the caller-supplied `min_confidence = 0.4`, a
single feature claim from one non-manufacturer source (the manufacturer
test is constantly false) is accepted: the output contains exactly one
feature entry with source count 1 — refuting the claim for arbitrary
`min_confidence`. -/
theorem spec_c3_cex :
    (consolidate_claims true [⟨"feature", "reclining back", "siteA", "", "feature"⟩]
      "acme" 0.4 (fun _ _ => false)).features =
      [⟨"reclining back", [⟨"siteA", ""⟩], 1/2⟩] := by
  have h : ∀ n : String, _text_entry_for (fun _ _ => false) "acme" 0.4
      (n, [⟨"feature", "reclining back", "siteA", "", "feature"⟩]) =
      some ⟨"reclining back", [⟨"siteA", ""⟩], 1/2⟩ := by
    intro n
    rw [_text_entry_for, if_pos]
    · simp [_phrase_conf, min_def]
      norm_num
    · left
      norm_num [_phrase_conf, min_def]
  simp [consolidate_claims, _groupByKey, _addToGroups, _spec_entry_for,
    List.find?, h]

/-- Every feature/disclaimer entry emitted from phrase groups satisfies the
corroboration rule once `min_confidence` exceeds 1/2: at least two sources
or a manufacturer source. -/
theorem _text_entries_corroborated {ism : String → String → Bool}
    {brand : String} {mc : ℚ} (hmc : 1/2 < mc) {cs : List Claim}
    {e : TextEntry}
    (he : e ∈ (_groupByKey (fun c => _norm_phrase c.value) cs).filterMap
      (_text_entry_for ism brand mc)) :
    2 ≤ e.sources.length ∨ ∃ s ∈ e.sources, ism s.url brand = true := by
  obtain ⟨g, hg, hge, hacc⟩ := _text_entry_mem (_groupByKey_groups_ne_nil _ cs) he
  subst hge
  dsimp only
  simp only [List.length_map]
  rcases hacc with hacc | hlen2
  · by_cases hany : g.any (fun v => ism v.source brand) = true
    · obtain ⟨v, hv, hvm⟩ := List.any_eq_true.mp hany
      right
      exact ⟨⟨v.source, v.snippet⟩, List.mem_map_of_mem _ hv, hvm⟩
    · left
      have hg1 : 1 ≤ g.length := List.length_pos.mpr (by
        cases g with
        | nil => exact absurd rfl hg
        | cons a l => exact List.cons_ne_nil a l)
      by_contra hlt
      push_neg at hlt
      have hlen1 : g.length = 1 := by omega
      rw [_phrase_conf] at hacc
      rw [Bool.not_eq_true] at hany
      rw [hany, hlen1] at hacc
      norm_num [min_def] at hacc
      linarith
  · left
    exact hlen2

/-- C3 (amended): for every `min_confidence` strictly above 0.5 (in
particular the default 0.6 used by `consolidate_claims`), every accepted
feature and disclaimer entry has at least two sources or a source the
manufacturer test accepts.  (At `min_confidence ≤ 0.5` the rule fails: a
single non-manufacturer feature scores exactly 0.5 and is accepted — see
the counterexample.) -/
theorem spec_c3_corroboration (ureg : Bool) (claims : List Claim)
    (brand : String) (mc : ℚ) (ism : String → String → Bool)
    (hmc : 1/2 < mc) :
    (∀ e ∈ (consolidate_claims ureg claims brand mc ism).features,
      2 ≤ e.sources.length ∨ ∃ s ∈ e.sources, ism s.url brand = true) ∧
    (∀ e ∈ (consolidate_claims ureg claims brand mc ism).disclaimers,
      2 ≤ e.sources.length ∨ ∃ s ∈ e.sources, ism s.url brand = true) := by
  constructor
  · intro e he
    simp only [consolidate_claims] at he
    exact _text_entries_corroborated hmc (List.take_subset 20 _ he)
  · intro e he
    simp only [consolidate_claims] at he
    exact _text_entries_corroborated hmc (List.take_subset 10 _ he)

/-- C3 witness: with the default `min_confidence = 0.6 > 0.5`, the feature
entry produced by two corroborating sources satisfies the corroboration
rule (its source count is 2). -/
theorem spec_c3_witness :
    2 ≤ ((⟨"mesh seat", [⟨"a", ""⟩, ⟨"b", ""⟩], 13/20⟩ : TextEntry)).sources.length ∨
    ∃ s ∈ ((⟨"mesh seat", [⟨"a", ""⟩, ⟨"b", ""⟩], 13/20⟩ : TextEntry)).sources,
      (fun (_ _ : String) => false) s.url "acme" = true := by
  have hconf : _phrase_conf (fun _ _ => false) "acme"
      [⟨"feature", "mesh seat", "a", "", "feature"⟩,
       ⟨"feature", "mesh seat", "b", "", "feature"⟩] = 13/20 := by
    rw [_phrase_conf]
    norm_num [min_def]
  have hfeats : (consolidate_claims true
      [⟨"feature", "mesh seat", "a", "", "feature"⟩,
       ⟨"feature", "mesh seat", "b", "", "feature"⟩]
      "acme" 0.6 (fun _ _ => false)).features =
      [⟨"mesh seat", [⟨"a", ""⟩, ⟨"b", ""⟩], 13/20⟩] := by
    have htext : ∀ n : String, _text_entry_for (fun _ _ => false) "acme" 0.6
        (n, [⟨"feature", "mesh seat", "a", "", "feature"⟩,
             ⟨"feature", "mesh seat", "b", "", "feature"⟩]) =
        some ⟨"mesh seat", [⟨"a", ""⟩, ⟨"b", ""⟩], 13/20⟩ := by
      intro n
      rw [_text_entry_for, if_pos]
      · rw [hconf]
        rfl
      · right
        simp
    simp [consolidate_claims, _groupByKey, _addToGroups, _spec_entry_for,
      List.find?, htext]
  exact (spec_c3_corroboration true
    [⟨"feature", "mesh seat", "a", "", "feature"⟩,
     ⟨"feature", "mesh seat", "b", "", "feature"⟩]
    "acme" 0.6 (fun _ _ => false) (by norm_num)).1
    ⟨"mesh seat", [⟨"a", ""⟩, ⟨"b", ""⟩], 13/20⟩ (by rw [hfeats]; simp)

/-- C5 counterexample: `_norm_phrase` keeps periods (the regex's kept set
includes `.`), so "Mesh seat." and "mesh seat" normalize differently,
land in two distinct claim groups, and — at `min_confidence = 0.4`, which
accepts single-member groups — produce two feature entries, not one. -/
theorem spec_c5_cex :
    (consolidate_claims true [⟨"feature", "Mesh seat.", "a", "", "feature"⟩,
      ⟨"feature", "mesh seat", "b", "", "feature"⟩] "acme" 0.4
      (fun _ _ => false)).features.length = 2 ∧
    _norm_phrase "Mesh seat." ≠ _norm_phrase "mesh seat" := by
  constructor
  · have h : ∀ (n : String) (c : Claim),
        _text_entry_for (fun _ _ => false) "acme" 0.4 (n, [c]) =
        some ⟨c.value, [⟨c.source, c.snippet⟩], 1/2⟩ := by
      intro n c
      rw [_text_entry_for, if_pos]
      · have hc : _phrase_conf (fun _ _ => false) "acme" [c] = 1/2 := by
          rw [_phrase_conf]
          norm_num [min_def]
        rw [hc]
        rfl
      · left
        norm_num [_phrase_conf, min_def]
    have hne : _norm_phrase "Mesh seat." ≠ _norm_phrase "mesh seat" := by decide
    simp [consolidate_claims, _groupByKey, _addToGroups, _spec_entry_for,
      List.find?, h, hne]
  · decide

/-- C5 (amended): two feature claims whose texts have the same
`_norm_phrase` normalization — i.e. differing only in letter case,
whitespace runs, and punctuation outside the kept set `{× x . - : /}` —
are merged into a single claim group and produce exactly one feature
entry; texts differing in kept punctuation (such as a trailing period)
are not merged. -/
theorem spec_c5_merge (ureg : Bool) (brand : String) (mc : ℚ)
    (ism : String → String → Bool) (v₁ s₁ n₁ v₂ s₂ n₂ : String)
    (h : _norm_phrase v₁ = _norm_phrase v₂) :
    (consolidate_claims ureg [⟨"feature", v₁, s₁, n₁, "feature"⟩,
      ⟨"feature", v₂, s₂, n₂, "feature"⟩] brand mc ism).features.length = 1 := by
  have htext : ∀ n : String, _text_entry_for ism brand mc
      (n, [⟨"feature", v₁, s₁, n₁, "feature"⟩, ⟨"feature", v₂, s₂, n₂, "feature"⟩]) =
      some ⟨v₁, [⟨s₁, n₁⟩, ⟨s₂, n₂⟩], _phrase_conf ism brand
        [⟨"feature", v₁, s₁, n₁, "feature"⟩, ⟨"feature", v₂, s₂, n₂, "feature"⟩]⟩ := by
    intro n
    rw [_text_entry_for, if_pos]
    · rfl
    · right
      simp
  simp [consolidate_claims, _groupByKey, _addToGroups, _spec_entry_for,
    List.find?, h, htext]

/-- C5 witness: "Mesh Seat!" and "mesh seat" differ only in case and in
punctuation outside the kept set, normalize identically, and produce
exactly one feature entry. -/
theorem spec_c5_witness :
    (consolidate_claims true [⟨"feature", "Mesh Seat!", "a", "", "feature"⟩,
      ⟨"feature", "mesh seat", "b", "", "feature"⟩] "acme" 0.6
      (fun _ _ => false)).features.length = 1 :=
  spec_c5_merge true "acme" 0.6 (fun _ _ => false)
    "Mesh Seat!" "a" "" "mesh seat" "b" "" (by decide)

/-- `"2.2 lb"` normalizes to `"1.00 kg"`: 2.2 · 0.45359237 = 0.997903214,
printed with two decimals. -/
theorem _nu_22lb : _normalize_units true "weight" "2.2 lb" = "1.00 kg" := by
  simp [_normalize_units, _lowerChars, _searchNumUnit, _parseFloat, _fmt2kg,
    _unitToKg, _matchUnitAt, _unitAlts, _charsLead, _digitsVal, _isNumChar]
  norm_num [round_eq]
  decide

/-- `"1 kg"` normalizes to `"1.00 kg"`. -/
theorem _nu_1kg : _normalize_units true "weight" "1 kg" = "1.00 kg" := by
  simp [_normalize_units, _lowerChars, _searchNumUnit, _parseFloat, _fmt2kg,
    _unitToKg, _matchUnitAt, _unitAlts, _charsLead, _digitsVal, _isNumChar]
  decide

/-- `"5 kg"` normalizes to `"5.00 kg"`. -/
theorem _nu_5kg : _normalize_units true "weight" "5 kg" = "5.00 kg" := by
  simp [_normalize_units, _lowerChars, _searchNumUnit, _parseFloat, _fmt2kg,
    _unitToKg, _matchUnitAt, _unitAlts, _charsLead, _digitsVal, _isNumChar]
  norm_num [round_eq]
  decide

/-- C7: with the unit registry available, weight normalization maps
"2.2 lb" and "1 kg" to the same canonical string (so the two claims land
in one claim group) and "2.2 lb" and "5 kg" to different strings
(different groups); and whenever the number-unit search or the float
parse fails, the original string is returned unchanged (the model is a
total function — no exception escapes). -/
theorem spec_c7_unit_round_trip :
    (∀ v : String, _searchNumUnit (_lowerChars v) = none →
      _normalize_units true "weight" v = v) ∧
    (∀ v num u : String, _searchNumUnit (_lowerChars v) = some (num, u) →
      _parseFloat num = none → _normalize_units true "weight" v = v) ∧
    _normalize_units true "weight" "2.2 lb" = _normalize_units true "weight" "1 kg" ∧
    _normalize_units true "weight" "2.2 lb" ≠ _normalize_units true "weight" "5 kg" ∧
    _groupByKey (fun c => _normalize_units true c.key c.value)
        [⟨"weight", "2.2 lb", "a", "", "spec"⟩, ⟨"weight", "1 kg", "b", "", "spec"⟩] =
      [("1.00 kg", [⟨"weight", "2.2 lb", "a", "", "spec"⟩,
        ⟨"weight", "1 kg", "b", "", "spec"⟩])] ∧
    (_groupByKey (fun c => _normalize_units true c.key c.value)
        [⟨"weight", "2.2 lb", "a", "", "spec"⟩,
         ⟨"weight", "5 kg", "c", "", "spec"⟩]).length = 2 := by
  refine ⟨?_, ?_, ?_, ?_, ?_, ?_⟩
  · intro v h
    rw [_normalize_units, if_neg (by decide), if_pos (by decide), h]
  · intro v num u h1 h2
    rw [_normalize_units, if_neg (by decide), if_pos (by decide), h1]
    dsimp only
    rw [h2]
  · rw [_nu_22lb, _nu_1kg]
  · rw [_nu_22lb, _nu_5kg]
    decide
  · simp [_groupByKey, _addToGroups, _nu_22lb, _nu_1kg]
  · simp [_groupByKey, _addToGroups, _nu_22lb, _nu_5kg]

/-- C7 witness: a value with no number-unit pattern ("hello") is returned
unchanged by weight normalization. -/
theorem spec_c7_witness : _normalize_units true "weight" "hello" = "hello" :=
  spec_c7_unit_round_trip.1 "hello" (by decide)
